import Mathlib

/-!
Shallow embedding of two fragments of the rasa-for-botfront repository:

* `src/rasa/model.py` — model fingerprinting, the per-section comparator
  `did_section_fingerprint_change`, the retraining decision `should_retrain`,
  and the packaging round trip `create_package_rasa` / `unpack_model`;
* `src/rasa/nlu/featurizers/sparse_featurizer/regex_featurizer.py` — the
  `RegexFeaturizer` component: lookup-table regex generation, per-token
  pattern matching, and persistence.

Python dicts are modelled as association lists (`List (String × β)`) whose
observable behaviour is `dictGet` / `dictKeys` / `dictSet`; Python sets are
modelled as lists with membership as the observable (deduplicated where the
source converts a set to a list).  Standard-library collaborators that are
not part of this repository (`shutil.move`, `re.finditer`'s engine,
`tarfile`, JSON (de)serialisation) are modelled by explicit oracle
parameters or by faithful value round trips, as noted at each definition.
-/

/-- Lookup in an association list modelling a Python dict (`d.get(k)`):
first binding wins; `none` models `None` for a missing key. -/
def dictGet {β : Type} (d : List (String × β)) (k : String) : Option β :=
  match d with
  | [] => none
  | (k2, v) :: rest => if k2 = k then some v else dictGet rest k

/-- `d.keys()` of a Python dict modelled as an association list. -/
def dictKeys {β : Type} (d : List (String × β)) : List String :=
  d.map Prod.fst

/-- Python `d[k] = v`: overwrite the first binding of `k`, or append a new
binding at the end (Python dicts keep insertion order). -/
def dictSet {β : Type} (d : List (String × β)) (k : String) (v : β) :
    List (String × β) :=
  match d with
  | [] => [(k, v)]
  | (k2, v2) :: rest =>
    if k2 = k then (k2, v) :: rest else (k2, v2) :: dictSet rest k v

/-- A value stored in a fingerprint: either a scalar (hash / version string)
or a per-language dict, as produced by `model_fingerprint`
(model.py lines 338-358). -/
inductive FPValue where
  | str (s : String)
  | dict (d : List (String × String))
deriving DecidableEq

/-- The fingerprint keys that belong to some section (model.py lines 44-53). -/
inductive FPKey where
  | config
  | coreConfig
  | nluConfig
  | domain
  | stories
  | nlg
  | messages
  | version
deriving DecidableEq

/-- A model fingerprint (model.py lines 338-358).  `nlu-config` and
`messages` hold per-language dicts; the remaining section-relevant keys hold
scalar strings.  (`trained_at` and `project` belong to no section and are
omitted.)  The NLU comparator calls `.keys()` on the `messages` and
`nlu-config` values of both fingerprints unconditionally (model.py
lines 416-430), so any fingerprint pair reaching it stores genuine dicts
there, as this structure does. -/
structure Fingerprint where
  config : String
  coreConfig : String
  nluConfig : List (String × String)
  domain : String
  stories : String
  nlg : String
  messages : List (String × String)
  version : String
deriving DecidableEq

/-- `fingerprint.get(k)` for the section-relevant keys. -/
def fpGet (fp : Fingerprint) : FPKey → FPValue
  | .config => .str fp.config
  | .coreConfig => .str fp.coreConfig
  | .nluConfig => .dict fp.nluConfig
  | .domain => .str fp.domain
  | .stories => .str fp.stories
  | .nlg => .str fp.nlg
  | .messages => .dict fp.messages
  | .version => .str fp.version

/-- Python `==` on fingerprint values: string equality for scalars,
extensional (key-by-key) equality for dicts. -/
def FPValue.pyEq : FPValue → FPValue → Prop
  | .str a, .str b => a = b
  | .dict d1, .dict d2 => ∀ k, dictGet d1 k = dictGet d2 k
  | _, _ => False

/-- A named group of fingerprint keys relevant to one retraining decision
(model.py lines 56-61). -/
structure Section where
  name : String
  relevant_keys : List FPKey

/-- model.py lines 64-73. -/
def SECTION_CORE : Section :=
  { name := "Core model",
    relevant_keys := [.config, .coreConfig, .domain, .stories, .version] }

/-- model.py lines 74-82. -/
def SECTION_NLU : Section :=
  { name := "NLU model",
    relevant_keys := [.config, .nluConfig, .messages, .version] }

/-- model.py line 83. -/
def SECTION_NLG : Section :=
  { name := "NLG templates", relevant_keys := [.nlg] }

/-- The generic (Core / NLG) branch of `did_section_fingerprint_change`
(model.py lines 452-456): the section changed iff some relevant key has
different values in the two fingerprints.  Every Core/NLG relevant key holds
a scalar string, so decidable equality on `FPValue` coincides with Python
`!=` on the values this is applied to. -/
def didSectionFingerprintChangeGeneric (fp1 fp2 : Fingerprint)
    (ks : List FPKey) : Bool :=
  ks.any fun k => decide (fpGet fp1 k ≠ fpGet fp2 k)

/-- `languages_in_old_model` / `languages_in_new_model` (model.py
lines 423-430): the keys of a fingerprint's NLU data dict (`messages`)
followed by the keys of its NLU config dict (`nlu-config`). -/
def languagesInModel (fp : Fingerprint) : List String :=
  dictKeys fp.messages ++ dictKeys fp.nluConfig

/-- `all_languages` (model.py lines 416-421): a set modelled as a
deduplicated list. -/
def allNluLanguages (fp1 fp2 : Fingerprint) : List String :=
  (languagesInModel fp1 ++ languagesInModel fp2).dedup

/-- One relevant key of the NLU section paired with its value in both
fingerprints, preserving the source's branch on
`isinstance(fingerprint1.get(k), dict)` (model.py line 436): `config` and
`version` hold scalars, `nlu-config` and `messages` hold per-language dicts
in both fingerprints (Python would raise on `.keys()` before the comparison
otherwise). -/
inductive NluSlot where
  | scalar (v1 v2 : String)
  | dict (d1 d2 : List (String × String))

/-- The NLU section's relevant keys in source order (model.py lines 74-82):
`config`, `nlu-config`, `messages`, `version`. -/
def nluRelevantSlots (fp1 fp2 : Fingerprint) : List NluSlot :=
  [ .scalar fp1.config fp2.config,
    .dict fp1.nluConfig fp2.nluConfig,
    .dict fp1.messages fp2.messages,
    .scalar fp1.version fp2.version ]

/-- The inner loop of the dict branch (model.py lines 441-443): the
languages of the old dict whose value differs in the new dict (a language
missing there compares against `None`). -/
def perKeyDiffs (d1 d2 : List (String × String)) : List String :=
  (dictKeys d1).filter fun lang => decide (dictGet d1 lang ≠ dictGet d2 lang)

/-- The key loop of the NLU branch (model.py lines 435-443).  `none` models
the early `return list(all_languages)` on a scalar-key mismatch; `some acc`
is the accumulated `languages_to_retrain` (a set modelled as a list,
membership being the observable). -/
def nluKeyLoop : List NluSlot → List String → Option (List String)
  | [], acc => some acc
  | .scalar v1 v2 :: rest, acc =>
    if v1 ≠ v2 then none else nluKeyLoop rest acc
  | .dict d1 d2 :: rest, acc =>
    nluKeyLoop rest (acc ++ perKeyDiffs d1 d2)

/-- The `"NLU model"` branch of `did_section_fingerprint_change`
(model.py lines 415-450): on a scalar-key mismatch return all languages;
otherwise add the newly added languages to the per-key differences and
discard the removed languages. -/
def nluLanguagesToRetrain (fp1 fp2 : Fingerprint) : List String :=
  let languages_added :=
    (languagesInModel fp2).filter fun l => decide (l ∉ languagesInModel fp1)
  let languages_removed :=
    (languagesInModel fp1).filter fun l => decide (l ∉ languagesInModel fp2)
  match nluKeyLoop (nluRelevantSlots fp1 fp2) [] with
  | none => allNluLanguages fp1 fp2
  | some languages_to_retrain =>
    (((languages_to_retrain ++ languages_added).filter fun l =>
      decide (l ∉ languages_removed))).dedup

/-- Result of `did_section_fingerprint_change`: a boolean for the Core / NLG
sections, a list of languages for the NLU section. -/
inductive SectionResult where
  | changed (b : Bool)
  | langs (ls : List String)
deriving DecidableEq

/-- `did_section_fingerprint_change` (model.py lines 410-456): dispatches on
the section name — the `"NLU model"` branch returns a per-language list, the
generic branch a boolean. -/
def did_section_fingerprint_change (fp1 fp2 : Fingerprint) (s : Section) :
    SectionResult :=
  if s.name = "NLU model" then .langs (nluLanguagesToRetrain fp1 fp2)
  else .changed (didSectionFingerprintChangeGeneric fp1 fp2 s.relevant_keys)

lemma dictGet_isSome_iff {β : Type} (d : List (String × β)) (k : String) :
    (dictGet d k).isSome ↔ k ∈ dictKeys d := by
  induction d with
  | nil => simp [dictGet, dictKeys]
  | cons p rest ih =>
    obtain ⟨k2, v⟩ := p
    by_cases h : k2 = k
    · subst h
      simp [dictGet, dictKeys]
    · have h2 : ¬(k = k2) := fun hh => h hh.symm
      simp [dictGet, dictKeys, h, h2, ih]

lemma nluKeyLoop_slots (fp1 fp2 : Fingerprint) :
    nluKeyLoop (nluRelevantSlots fp1 fp2) [] =
      if fp1.config ≠ fp2.config ∨ fp1.version ≠ fp2.version then none
      else some (perKeyDiffs fp1.nluConfig fp2.nluConfig ++
        perKeyDiffs fp1.messages fp2.messages) := by
  by_cases hc : fp1.config = fp2.config <;>
    by_cases hv : fp1.version = fp2.version <;>
      simp [nluRelevantSlots, nluKeyLoop, hc, hv]

lemma nluLanguagesToRetrain_of_scalar_diff (fp1 fp2 : Fingerprint)
    (h : fp1.config ≠ fp2.config ∨ fp1.version ≠ fp2.version) :
    nluLanguagesToRetrain fp1 fp2 = allNluLanguages fp1 fp2 := by
  rw [nluLanguagesToRetrain, nluKeyLoop_slots, if_pos h]

lemma mem_nluLanguagesToRetrain_iff (fp1 fp2 : Fingerprint)
    (hc : fp1.config = fp2.config) (hv : fp1.version = fp2.version)
    (l : String) :
    l ∈ nluLanguagesToRetrain fp1 fp2 ↔
      ((l ∈ perKeyDiffs fp1.nluConfig fp2.nluConfig ∨
          l ∈ perKeyDiffs fp1.messages fp2.messages ∨
          (l ∈ languagesInModel fp2 ∧ l ∉ languagesInModel fp1)) ∧
        (l ∈ languagesInModel fp1 → l ∈ languagesInModel fp2)) := by
  rw [nluLanguagesToRetrain, nluKeyLoop_slots,
    if_neg (by simp [hc, hv])]
  simp [List.mem_dedup, List.mem_filter, List.mem_append, or_assoc]
  tauto

lemma FPValue.pyEq_refl (v : FPValue) : v.pyEq v := by
  cases v <;> simp [FPValue.pyEq]

lemma did_section_fingerprint_change_core (fp1 fp2 : Fingerprint) :
    did_section_fingerprint_change fp1 fp2 SECTION_CORE =
      .changed (didSectionFingerprintChangeGeneric fp1 fp2
        SECTION_CORE.relevant_keys) := by
  rfl

lemma did_section_fingerprint_change_nlg (fp1 fp2 : Fingerprint) :
    did_section_fingerprint_change fp1 fp2 SECTION_NLG =
      .changed (didSectionFingerprintChangeGeneric fp1 fp2
        SECTION_NLG.relevant_keys) := by
  rfl

lemma did_section_fingerprint_change_nlu (fp1 fp2 : Fingerprint) :
    did_section_fingerprint_change fp1 fp2 SECTION_NLU =
      .langs (nluLanguagesToRetrain fp1 fp2) := by
  rfl

/-- C2: for every section (Core, NLU, NLG) and every pair of fingerprints in
which each of that section's relevant keys has an equal value (Python `==`,
i.e. `FPValue.pyEq`) in both fingerprints, `did_section_fingerprint_change`
reports that no retraining is needed: `False` for the Core and NLG sections,
and an empty list of languages for the NLU section. -/
theorem spec_C2_section_equal_no_retrain (fp1 fp2 : Fingerprint) :
    ((∀ k ∈ SECTION_CORE.relevant_keys, (fpGet fp1 k).pyEq (fpGet fp2 k)) →
      did_section_fingerprint_change fp1 fp2 SECTION_CORE = .changed false) ∧
    ((∀ k ∈ SECTION_NLG.relevant_keys, (fpGet fp1 k).pyEq (fpGet fp2 k)) →
      did_section_fingerprint_change fp1 fp2 SECTION_NLG = .changed false) ∧
    ((∀ k ∈ SECTION_NLU.relevant_keys, (fpGet fp1 k).pyEq (fpGet fp2 k)) →
      did_section_fingerprint_change fp1 fp2 SECTION_NLU = .langs []) := by
  refine ⟨?_, ?_, ?_⟩
  · intro h
    have h1 := h .config (by simp [SECTION_CORE])
    have h2 := h .coreConfig (by simp [SECTION_CORE])
    have h3 := h .domain (by simp [SECTION_CORE])
    have h4 := h .stories (by simp [SECTION_CORE])
    have h5 := h .version (by simp [SECTION_CORE])
    simp only [fpGet, FPValue.pyEq] at h1 h2 h3 h4 h5
    rw [did_section_fingerprint_change_core]
    simp [SECTION_CORE, didSectionFingerprintChangeGeneric, fpGet,
      h1, h2, h3, h4, h5]
  · intro h
    have h1 := h .nlg (by simp [SECTION_NLG])
    simp only [fpGet, FPValue.pyEq] at h1
    rw [did_section_fingerprint_change_nlg]
    simp [SECTION_NLG, didSectionFingerprintChangeGeneric, fpGet, h1]
  · intro h
    have h1 := h .config (by simp [SECTION_NLU])
    have hnc := h .nluConfig (by simp [SECTION_NLU])
    have hm := h .messages (by simp [SECTION_NLU])
    have hv := h .version (by simp [SECTION_NLU])
    simp only [fpGet, FPValue.pyEq] at h1 hnc hm hv
    rw [did_section_fingerprint_change_nlu]
    congr 1
    rw [List.eq_nil_iff_forall_not_mem]
    intro l hl
    rw [mem_nluLanguagesToRetrain_iff fp1 fp2 h1 hv l] at hl
    obtain ⟨hcase, -⟩ := hl
    have hsub : l ∈ languagesInModel fp2 → l ∈ languagesInModel fp1 := by
      intro hin
      rw [languagesInModel, List.mem_append] at hin ⊢
      rcases hin with hmem | hmem
      · have hs : (dictGet fp2.messages l).isSome :=
          (dictGet_isSome_iff _ _).2 hmem
        rw [← hm l] at hs
        exact Or.inl ((dictGet_isSome_iff _ _).1 hs)
      · have hs : (dictGet fp2.nluConfig l).isSome :=
          (dictGet_isSome_iff _ _).2 hmem
        rw [← hnc l] at hs
        exact Or.inr ((dictGet_isSome_iff _ _).1 hs)
    rcases hcase with hd | hd | ⟨hin2, hnot1⟩
    · rw [perKeyDiffs, List.mem_filter] at hd
      exact absurd (hnc l) (by simpa using hd.2)
    · rw [perKeyDiffs, List.mem_filter] at hd
      exact absurd (hm l) (by simpa using hd.2)
    · exact hnot1 (hsub hin2)

def c2WitnessFingerprint : Fingerprint :=
  { config := "cfg", coreConfig := "core", nluConfig := [("en", "h1")],
    domain := "dom", stories := "st", nlg := "nlg-hash",
    messages := [("en", "m1")], version := "2.0" }

theorem spec_C2_witness :
    did_section_fingerprint_change c2WitnessFingerprint c2WitnessFingerprint
        SECTION_CORE = .changed false ∧
    did_section_fingerprint_change c2WitnessFingerprint c2WitnessFingerprint
        SECTION_NLG = .changed false ∧
    did_section_fingerprint_change c2WitnessFingerprint c2WitnessFingerprint
        SECTION_NLU = .langs [] :=
  ⟨(spec_C2_section_equal_no_retrain _ _).1
      (fun k _ => FPValue.pyEq_refl (fpGet c2WitnessFingerprint k)),
   (spec_C2_section_equal_no_retrain _ _).2.1
      (fun k _ => FPValue.pyEq_refl (fpGet c2WitnessFingerprint k)),
   (spec_C2_section_equal_no_retrain _ _).2.2
      (fun k _ => FPValue.pyEq_refl (fpGet c2WitnessFingerprint k))⟩

/-- C1 (amended): in the NLU-section comparison, a language appearing in the
new fingerprint's NLU data or NLU config keys but not in the old one's is
always in the returned retrain set; a language appearing only in the old
fingerprint's keys is never in the returned set, **provided** the non-dict
relevant keys (`config`, `version`) are equal in both fingerprints — if one
of them differs, the comparison short-circuits and returns all languages,
including the removed ones (see the counterexample). -/
theorem spec_C1_added_removed_languages (fp1 fp2 : Fingerprint) (l : String) :
    (l ∈ languagesInModel fp2 → l ∉ languagesInModel fp1 →
      l ∈ nluLanguagesToRetrain fp1 fp2) ∧
    (fp1.config = fp2.config → fp1.version = fp2.version →
      l ∈ languagesInModel fp1 → l ∉ languagesInModel fp2 →
      l ∉ nluLanguagesToRetrain fp1 fp2) := by
  constructor
  · intro hnew hold
    by_cases hc : fp1.config = fp2.config
    · by_cases hv : fp1.version = fp2.version
      · rw [mem_nluLanguagesToRetrain_iff fp1 fp2 hc hv]
        exact ⟨Or.inr (Or.inr ⟨hnew, hold⟩), fun h1 => absurd h1 hold⟩
      · rw [nluLanguagesToRetrain_of_scalar_diff fp1 fp2 (Or.inr hv)]
        rw [allNluLanguages, List.mem_dedup, List.mem_append]
        exact Or.inr hnew
    · rw [nluLanguagesToRetrain_of_scalar_diff fp1 fp2 (Or.inl hc)]
      rw [allNluLanguages, List.mem_dedup, List.mem_append]
      exact Or.inr hnew
  · intro hc hv hold hnew hmem
    rw [mem_nluLanguagesToRetrain_iff fp1 fp2 hc hv] at hmem
    exact hnew (hmem.2 hold)

def c1OldFingerprint : Fingerprint :=
  { config := "a", coreConfig := "", nluConfig := [("fr", "h")], domain := "",
    stories := "", nlg := "", messages := [], version := "1" }

def c1NewFingerprint : Fingerprint :=
  { config := "b", coreConfig := "", nluConfig := [], domain := "",
    stories := "", nlg := "", messages := [], version := "1" }

/-- C1 counterexample: with the `config` key differing (a non-dict relevant
key), the language `"fr"` appears only in the old fingerprint's NLU config
keys, yet it is in the returned retrain set — the short-circuit path returns
all languages, removed ones included.  This refutes the claim's "never
included" half as universally stated. -/
theorem spec_C1_counterexample :
    "fr" ∈ nluLanguagesToRetrain c1OldFingerprint c1NewFingerprint ∧
    "fr" ∈ languagesInModel c1OldFingerprint ∧
    "fr" ∉ languagesInModel c1NewFingerprint := by
  decide

def c1WitnessOld : Fingerprint :=
  { config := "c", coreConfig := "", nluConfig := [], domain := "",
    stories := "", nlg := "", messages := [], version := "1" }

def c1WitnessNew : Fingerprint :=
  { config := "c", coreConfig := "", nluConfig := [("en", "h")], domain := "",
    stories := "", nlg := "", messages := [], version := "1" }

theorem spec_C1_witness :
    "en" ∈ nluLanguagesToRetrain c1WitnessOld c1WitnessNew ∧
    "en" ∉ nluLanguagesToRetrain c1WitnessNew c1WitnessOld :=
  ⟨(spec_C1_added_removed_languages c1WitnessOld c1WitnessNew "en").1
      (by decide) (by decide),
   (spec_C1_added_removed_languages c1WitnessNew c1WitnessOld "en").2
      (by decide) (by decide) (by decide) (by decide)⟩

/-- C4: if a relevant key whose value is not a dict (`config` or `version`)
has different values in the old and new fingerprints, the NLU-section
comparison short-circuits and returns the set of all languages appearing in
either fingerprint's NLU data or NLU config keys. -/
theorem spec_C4_scalar_mismatch_all_languages (fp1 fp2 : Fingerprint)
    (h : fp1.config ≠ fp2.config ∨ fp1.version ≠ fp2.version) :
    did_section_fingerprint_change fp1 fp2 SECTION_NLU =
      .langs (allNluLanguages fp1 fp2) ∧
    ∀ l, l ∈ allNluLanguages fp1 fp2 ↔
      (l ∈ dictKeys fp1.messages ∨ l ∈ dictKeys fp1.nluConfig ∨
        l ∈ dictKeys fp2.messages ∨ l ∈ dictKeys fp2.nluConfig) := by
  constructor
  · rw [did_section_fingerprint_change_nlu,
      nluLanguagesToRetrain_of_scalar_diff fp1 fp2 h]
  · intro l
    rw [allNluLanguages, List.mem_dedup]
    simp [languagesInModel, List.mem_append, or_assoc]

def c4OldFingerprint : Fingerprint :=
  { config := "x", coreConfig := "", nluConfig := [("fr", "h")], domain := "",
    stories := "", nlg := "", messages := [("de", "m")], version := "1" }

def c4NewFingerprint : Fingerprint :=
  { config := "y", coreConfig := "", nluConfig := [("en", "h")], domain := "",
    stories := "", nlg := "", messages := [], version := "1" }

theorem spec_C4_witness :
    did_section_fingerprint_change c4OldFingerprint c4NewFingerprint
        SECTION_NLU = .langs (allNluLanguages c4OldFingerprint c4NewFingerprint) ∧
    ("fr" ∈ allNluLanguages c4OldFingerprint c4NewFingerprint ↔
      ("fr" ∈ dictKeys c4OldFingerprint.messages ∨
        "fr" ∈ dictKeys c4OldFingerprint.nluConfig ∨
        "fr" ∈ dictKeys c4NewFingerprint.messages ∨
        "fr" ∈ dictKeys c4NewFingerprint.nluConfig)) :=
  ⟨(spec_C4_scalar_mismatch_all_languages c4OldFingerprint c4NewFingerprint
      (Or.inl (by decide))).1,
   (spec_C4_scalar_mismatch_all_languages c4OldFingerprint c4NewFingerprint
      (Or.inl (by decide))).2 "fr"⟩

/-- The value of the `nlu` attribute of a `FingerprintComparisonResult`
(model.py 86-125): initialised to the boolean `True`, overwritten with the
per-language list by `should_retrain` (model.py 510-512, 541); Python's
`force_training or self.nlu` can evaluate to either shape. -/
inductive NluVal where
  | bool (b : Bool)
  | langs (ls : List String)
deriving DecidableEq

/-- `FingerprintComparisonResult` (model.py lines 86-105). -/
structure FingerprintComparisonResult where
  nlu : NluVal
  core : Bool
  nlg : Bool
  force_training : Bool
deriving DecidableEq

/-- The all-defaults constructor call `FingerprintComparisonResult()`
(model.py lines 87-93): everything needs retraining, training not forced. -/
def FingerprintComparisonResult.default : FingerprintComparisonResult :=
  { nlu := .bool true, core := true, nlg := true, force_training := false }

/-- `should_retrain_core` (model.py lines 112-115):
`self.force_training or self.core`. -/
def FingerprintComparisonResult.should_retrain_core
    (r : FingerprintComparisonResult) : Bool :=
  r.force_training || r.core

/-- `should_retrain_nlg` (model.py lines 117-120):
`self.should_retrain_core() or self.nlg`. -/
def FingerprintComparisonResult.should_retrain_nlg
    (r : FingerprintComparisonResult) : Bool :=
  r.should_retrain_core || r.nlg

/-- `should_retrain_nlu` (model.py lines 122-125):
`self.force_training or self.nlu`.  With `force_training` truthy Python
returns the boolean `True`; otherwise it returns `self.nlu` unchanged
(even when that is a falsy empty list). -/
def FingerprintComparisonResult.should_retrain_nlu
    (r : FingerprintComparisonResult) : NluVal :=
  if r.force_training then .bool true else r.nlu

/-- The per-language move loop of `should_retrain` (model.py lines 534-540),
iterating over the old model's NLU languages in order.  `move_model`'s
outcome (it catches every exception from `shutil.move` and returns a
boolean, model.py 459-475) is the oracle `move_ok`.  Returns the final
`languages_to_train` list and, as instrumentation, the list of languages for
which `move_model` was invoked (those still present in the new fingerprint's
`nlu-config` keys). -/
def nluMoveLoop (new_config_langs : List String) (move_ok : String → Bool) :
    List String → List String → List String × List String
  | [], acc => (acc, [])
  | lang :: rest, acc =>
    if lang ∈ new_config_langs then
      let acc2 := if move_ok lang then acc else acc ++ [lang]
      let r := nluMoveLoop new_config_langs move_ok rest acc2
      (r.1, lang :: r.2)
    else
      nluMoveLoop new_config_langs move_ok rest acc

/-- The languages for which `should_retrain` attempts a directory move
(model.py line 536): old-model languages still present in the new
fingerprint's `nlu-config` keys. -/
def attemptedNluMoves (new_fingerprint : Fingerprint)
    (old_nlu : List (String × String)) : List String :=
  (dictKeys old_nlu).filter fun lang =>
    decide (lang ∈ dictKeys new_fingerprint.nluConfig)

/-- The body of `should_retrain` once the old model has been unpacked
(model.py lines 498-544).  External effects are parameters: the previous
model's fingerprint (`fingerprint_from_path`), its per-language NLU
directories `old_nlu` (`get_model_subdirectories`), the
minimum-compatible-version comparison `model_outdated`, and the boolean
outcomes of the `move_model` calls (`core_move_ok`, `nlu_move_ok`).
Returns `none` when Python would raise: with `force_training` set,
`languages_to_train` is the boolean `True`, and a failed attempted move
calls `True.append(lang)` — an `AttributeError`. -/
def should_retrain_body (new_fingerprint last_fingerprint : Fingerprint)
    (old_nlu : List (String × String)) (model_outdated : Bool)
    (core_move_ok : Bool) (nlu_move_ok : String → Bool) :
    Option FingerprintComparisonResult :=
  let fc : FingerprintComparisonResult :=
    { core := didSectionFingerprintChangeGeneric last_fingerprint
        new_fingerprint SECTION_CORE.relevant_keys,
      nlu := .langs (nluLanguagesToRetrain last_fingerprint new_fingerprint),
      nlg := didSectionFingerprintChangeGeneric last_fingerprint
        new_fingerprint SECTION_NLG.relevant_keys,
      force_training := model_outdated }
  let core_merge_failed := !fc.should_retrain_core && !core_move_ok
  let fc2 : FingerprintComparisonResult :=
    { fc with
      core := if !fc.should_retrain_core then !core_move_ok else fc.core }
  let fc3 : FingerprintComparisonResult :=
    { fc2 with
      nlg := if !fc2.should_retrain_nlg && core_merge_failed then true
        else fc2.nlg }
  match fc3.should_retrain_nlu with
  | .langs ls =>
    let r := nluMoveLoop (dictKeys new_fingerprint.nluConfig) nlu_move_ok
      (dictKeys old_nlu) ls
    some { fc3 with nlu := .langs r.1 }
  | .bool b =>
    if (dictKeys old_nlu).any (fun lang =>
        decide (lang ∈ dictKeys new_fingerprint.nluConfig) && !nlu_move_ok lang)
    then none
    else some { fc3 with nlu := .bool b }

/-- `should_retrain` (model.py lines 478-544): with no previous model (or a
path that does not exist) the default comparison result is returned;
otherwise the unpacked-model body runs. -/
def should_retrain_fn (new_fingerprint : Fingerprint)
    (old_model : Option (Fingerprint × List (String × String)))
    (model_outdated : Bool) (core_move_ok : Bool)
    (nlu_move_ok : String → Bool) : Option FingerprintComparisonResult :=
  match old_model with
  | none => some FingerprintComparisonResult.default
  | some (last_fingerprint, old_nlu) =>
    should_retrain_body new_fingerprint last_fingerprint old_nlu
      model_outdated core_move_ok nlu_move_ok

lemma nluMoveLoop_spec (cfg : List String) (mok : String → Bool) :
    ∀ (langs acc : List String),
      nluMoveLoop cfg mok langs acc =
        (acc ++ langs.filter fun l => decide (l ∈ cfg) && !mok l,
         langs.filter fun l => decide (l ∈ cfg)) := by
  intro langs
  induction langs with
  | nil => intro acc; simp [nluMoveLoop]
  | cons lang rest ih =>
    intro acc
    by_cases hc : lang ∈ cfg
    · by_cases hm : mok lang = true
      · simp [nluMoveLoop, hc, hm, ih, List.filter_cons]
      · have hm2 : mok lang = false := by
          cases h : mok lang
          · rfl
          · exact absurd h hm
        simp [nluMoveLoop, hc, hm2, ih, List.filter_cons]
    · simp [nluMoveLoop, hc, ih, List.filter_cons]

lemma should_retrain_body_not_outdated
    (new_fp last_fp : Fingerprint) (old_nlu : List (String × String))
    (core_move_ok : Bool) (nlu_move_ok : String → Bool) :
    ∃ r, should_retrain_body new_fp last_fp old_nlu false core_move_ok
        nlu_move_ok = some r ∧
      r.force_training = false ∧
      r.nlu = .langs (nluLanguagesToRetrain last_fp new_fp ++
        (dictKeys old_nlu).filter
          (fun l => decide (l ∈ dictKeys new_fp.nluConfig) &&
            !(nlu_move_ok l))) := by
  refine ⟨_, rfl, rfl, ?_⟩
  simp [nluMoveLoop_spec]

lemma should_retrain_body_outdated
    (new_fp last_fp : Fingerprint) (old_nlu : List (String × String))
    (core_move_ok : Bool) (nlu_move_ok : String → Bool)
    (r : FingerprintComparisonResult)
    (hr : should_retrain_body new_fp last_fp old_nlu true core_move_ok
      nlu_move_ok = some r) :
    r.nlu = .bool true ∧
    ∀ lang ∈ dictKeys old_nlu, lang ∈ dictKeys new_fp.nluConfig →
      nlu_move_ok lang = true := by
  simp only [should_retrain_body,
    FingerprintComparisonResult.should_retrain_nlu] at hr
  split at hr
  · rename_i x ls heq
    simp at heq
  · rename_i x b heq
    rw [if_pos trivial] at heq
    injection heq with hb
    split at hr
    · exact absurd hr (by simp)
    · rename_i hany
      constructor
      · have hXr := Option.some_inj.mp hr
        rw [← hXr]
        exact congrArg NluVal.bool hb.symm
      · intro lang hmem hcfg
        by_contra hnot
        have hfalse : nlu_move_ok lang = false := by
          cases h : nlu_move_ok lang
          · rfl
          · exact absurd h hnot
        exact hany (List.any_eq_true.2 ⟨lang, hmem, by simp [hcfg, hfalse]⟩)

/-- C3: in `should_retrain`, for every language of the unpacked old model's
NLU directories, `move_model` is invoked exactly when that language still
exists in the new fingerprint's `nlu-config` keys — a language dropped from
the configuration is not moved, and the move loop does not change whether it
belongs to the retrain set — and whenever such an attempted move fails, the
language is in the per-language NLU retrain set of the returned comparison
result. -/
theorem spec_C3_nlu_move_loop
    (new_fp last_fp : Fingerprint) (old_nlu : List (String × String))
    (model_outdated core_move_ok : Bool) (nlu_move_ok : String → Bool)
    (r : FingerprintComparisonResult) (lang : String)
    (hr : should_retrain_body new_fp last_fp old_nlu model_outdated
      core_move_ok nlu_move_ok = some r)
    (hl : lang ∈ dictKeys old_nlu) :
    (lang ∉ dictKeys new_fp.nluConfig →
      lang ∉ attemptedNluMoves new_fp old_nlu ∧
      ∀ ls, r.nlu = .langs ls →
        (lang ∈ ls ↔ lang ∈ nluLanguagesToRetrain last_fp new_fp)) ∧
    (lang ∈ dictKeys new_fp.nluConfig →
      lang ∈ attemptedNluMoves new_fp old_nlu ∧
      (nlu_move_ok lang = false →
        ∃ ls, r.nlu = .langs ls ∧ lang ∈ ls)) := by
  have hatt_in : lang ∈ dictKeys new_fp.nluConfig →
      lang ∈ attemptedNluMoves new_fp old_nlu := by
    intro hcfg
    rw [attemptedNluMoves, List.mem_filter]
    exact ⟨hl, by simp [hcfg]⟩
  have hatt_out : lang ∉ dictKeys new_fp.nluConfig →
      lang ∉ attemptedNluMoves new_fp old_nlu := by
    intro hcfg hmem
    rw [attemptedNluMoves, List.mem_filter] at hmem
    exact hcfg (by simpa using hmem.2)
  cases model_outdated with
  | false =>
    obtain ⟨r0, heq, hft, hnlu⟩ := should_retrain_body_not_outdated new_fp
      last_fp old_nlu core_move_ok nlu_move_ok
    rw [heq] at hr
    have hrr : r0 = r := Option.some_inj.mp hr
    subst hrr
    constructor
    · intro hcfg
      refine ⟨hatt_out hcfg, ?_⟩
      intro ls hls
      rw [hnlu] at hls
      injection hls with hls2
      subst hls2
      rw [List.mem_append]
      constructor
      · rintro (h | h)
        · exact h
        · rw [List.mem_filter] at h
          have h2 := h.2
          simp at h2
          exact absurd h2.1 hcfg
      · exact Or.inl
    · intro hcfg
      refine ⟨hatt_in hcfg, ?_⟩
      intro hfail
      refine ⟨_, hnlu, ?_⟩
      apply List.mem_append.mpr
      right
      rw [List.mem_filter]
      exact ⟨hl, by simp [hcfg, hfail]⟩
  | true =>
    obtain ⟨hb, hall⟩ := should_retrain_body_outdated new_fp last_fp old_nlu
      core_move_ok nlu_move_ok r hr
    constructor
    · intro hcfg
      refine ⟨hatt_out hcfg, ?_⟩
      intro ls hls
      rw [hb] at hls
      simp at hls
    · intro hcfg
      refine ⟨hatt_in hcfg, ?_⟩
      intro hfail
      exact absurd (hall lang hl hcfg) (by simp [hfail])

def c3NewFingerprint : Fingerprint :=
  { config := "c", coreConfig := "", nluConfig := [("en", "h")], domain := "",
    stories := "", nlg := "", messages := [], version := "1" }

def c3OldNluDirs : List (String × String) := [("en", "p"), ("fr", "q")]

theorem spec_C3_witness :
    "en" ∈ attemptedNluMoves c3NewFingerprint c3OldNluDirs ∧
    "fr" ∉ attemptedNluMoves c3NewFingerprint c3OldNluDirs :=
  have h1 := spec_C3_nlu_move_loop c3NewFingerprint c3NewFingerprint
    c3OldNluDirs false true (fun _ => false)
    ⟨.langs ["en"], false, false, false⟩ "en" (by decide) (by decide)
  have h2 := spec_C3_nlu_move_loop c3NewFingerprint c3NewFingerprint
    c3OldNluDirs false true (fun _ => false)
    ⟨.langs ["en"], false, false, false⟩ "fr" (by decide) (by decide)
  ⟨(h1.2 (by decide)).1, (h2.1 (by decide)).1⟩

/-- C5: when the Core section is unchanged and training is not forced but
moving the previous Core artifacts fails (`core_move_ok = false`),
`should_retrain` still returns normally (the move failure was converted to a
boolean by `move_model`, so `some` — no exception propagates), and the
returned result has `should_retrain_core` true and consequently
`should_retrain_nlg` true. -/
theorem spec_C5_core_move_failure
    (new_fp last_fp : Fingerprint) (old_nlu : List (String × String))
    (nlu_move_ok : String → Bool)
    (hcore : didSectionFingerprintChangeGeneric last_fp new_fp
      SECTION_CORE.relevant_keys = false) :
    ∃ r, should_retrain_body new_fp last_fp old_nlu false false nlu_move_ok
        = some r ∧
      r.should_retrain_core = true ∧ r.should_retrain_nlg = true := by
  refine ⟨_, rfl, ?_, ?_⟩
  · simp [FingerprintComparisonResult.should_retrain_core, hcore]
  · simp [FingerprintComparisonResult.should_retrain_nlg,
      FingerprintComparisonResult.should_retrain_core, hcore]

def c5Fingerprint : Fingerprint :=
  { config := "c", coreConfig := "k", nluConfig := [], domain := "d",
    stories := "s", nlg := "n", messages := [], version := "1" }

def c5Result : FingerprintComparisonResult :=
  { nlu := .langs [], core := true, nlg := false, force_training := false }

theorem spec_C5_witness :
    should_retrain_body c5Fingerprint c5Fingerprint [] false false
        (fun _ => true) = some c5Result ∧
    c5Result.should_retrain_core = true ∧
    c5Result.should_retrain_nlg = true := by
  obtain ⟨r, heq, h1, h2⟩ := spec_C5_core_move_failure c5Fingerprint
    c5Fingerprint [] (fun _ => true) (by decide)
  have hbody : should_retrain_body c5Fingerprint c5Fingerprint [] false false
      (fun _ => true) = some c5Result := by decide
  have hc : r = c5Result := by
    rw [heq] at hbody
    exact Option.some_inj.mp hbody
  exact ⟨hc ▸ heq, hc ▸ h1, hc ▸ h2⟩

/-- A known pattern of the `RegexFeaturizer`: a name / regex-string pair
(regex_featurizer.py, entries of `known_patterns`). -/
structure Pattern where
  name : String
  pattern : String
deriving DecidableEq

/-- A lookup table whose elements are the literal strings to match
(regex_featurizer.py lines 129-161).  The inline-list variant carries the
elements directly; the file-path variant reads the same element list from
disk (stripped non-empty lines) — the element list is the input either
way. -/
structure LookupTable where
  name : String
  elements : List String
deriving DecidableEq

/-- The characters escaped by Python's `re.escape` (the
`_special_chars_map` of CPython's `re` module, used at
regex_featurizer.py line 164). -/
def reSpecialChars : List Char :=
  ['(', ')', '[', ']', '\x7b', '\x7d', '?', '*', '+', '-', '|', '^', '$',
   '\\', '.', '&', '~', '#', ' ', '\t', '\n', '\r', '\x0b', '\x0c']

/-- `re.escape`: prefix every special character with a backslash. -/
def reEscape (s : String) : String :=
  String.mk (s.data.foldr
    (fun c acc => if c ∈ reSpecialChars then '\\' :: c :: acc else c :: acc)
    [])

/-- Python `sep.join(parts)`. -/
def joinSep (sep : String) : List String → String
  | [] => ""
  | [x] => x
  | x :: y :: rest => x ++ sep ++ joinSep sep (y :: rest)

/-- `_generate_lookup_regex` (regex_featurizer.py lines 129-168): escape
every element and build a case-insensitive alternation with word boundaries
on either side of each element. -/
def _generate_lookup_regex (table : LookupTable) : String :=
  let elements_sanitized := table.elements.map reEscape
  "(?i)(\\b" ++ joinSep "\\b|\\b" elements_sanitized ++ "\\b)"

/-- `RegexFeaturizer` state: the ordered list of known patterns and the
`return_sequence` flag (regex_featurizer.py lines 30-56). -/
structure RegexFeaturizer where
  known_patterns : List Pattern
  return_sequence : Bool
deriving DecidableEq

/-- `_add_lookup_table_regexes` (regex_featurizer.py lines 80-87): append
one generated pattern per lookup table. -/
def addLookupTableRegexes (kp : List Pattern) (tables : List LookupTable) :
    List Pattern :=
  kp ++ tables.map fun t =>
    { name := t.name, pattern := _generate_lookup_regex t }

/-- `RegexFeaturizer.__init__` (regex_featurizer.py lines 43-56):
`known_patterns if known_patterns else []` (Python truthiness — `None` and
the empty list both yield `[]`), then append the lookup-table regexes. -/
def RegexFeaturizer.init (return_sequence : Bool)
    (known_patterns : Option (List Pattern))
    (lookup_tables : List LookupTable) : RegexFeaturizer :=
  let kp := match known_patterns with
    | some ps => if ps.isEmpty then [] else ps
    | none => []
  { known_patterns := addLookupTableRegexes kp lookup_tables,
    return_sequence := return_sequence }

/-- `persist` (regex_featurizer.py lines 189-196): the file content is
exactly the `known_patterns` list — JSON (de)serialisation by
`write_json_to_file` / `read_json_file` (library code, not part of this
repository) is a faithful round trip on this list of name/pattern records
and is modelled as the identity on the list. -/
def RegexFeaturizer.persist (f : RegexFeaturizer) : List Pattern :=
  f.known_patterns

/-- `load` (regex_featurizer.py lines 170-187): when the persisted file
exists, construct a featurizer from its content (and no lookup tables);
otherwise construct an empty one. -/
def RegexFeaturizer.load (file_content : Option (List Pattern))
    (return_sequence : Bool) : RegexFeaturizer :=
  match file_content with
  | some ps => RegexFeaturizer.init return_sequence (some ps) []
  | none => RegexFeaturizer.init return_sequence none []

/-- C6: calling `persist` and then `load` on the produced file restores a
featurizer whose `known_patterns` is exactly the same list of name/pattern
entries, element for element and in the same order. -/
theorem spec_C6_persist_load_roundtrip (f : RegexFeaturizer) (rs : Bool) :
    (RegexFeaturizer.load (some f.persist) rs).known_patterns =
      f.known_patterns := by
  cases h : f.known_patterns with
  | nil =>
    simp [RegexFeaturizer.load, RegexFeaturizer.init,
      RegexFeaturizer.persist, addLookupTableRegexes, h]
  | cons p rest =>
    simp [RegexFeaturizer.load, RegexFeaturizer.init,
      RegexFeaturizer.persist, addLookupTableRegexes, h]

/-- The fragment of Python's regex language that the generated lookup
regexes use: literal character sequences, the zero-width word-boundary
assertion, concatenation and alternation.  Matching is case-insensitive
throughout, mirroring the global `(?i)` flag of the generated string. -/
inductive Rgx where
  | lit (cs : List Char)
  | wordB
  | seq (a b : Rgx)
  | alt (a b : Rgx)

/-- Python `\w` for the ASCII texts exercised here: letters, digits and
underscore. -/
def isWordChar (c : Char) : Bool :=
  c.isAlphanum || c == '_'

/-- Python's `\b`: position `i` of `t` lies between a word character and a
non-word character (positions outside the text count as non-word). -/
def isWordBoundaryAt (t : List Char) (i : Nat) : Bool :=
  let prevW := decide (i ≠ 0) && (match t.get? (i - 1) with
    | some c => isWordChar c
    | none => false)
  let nextW := match t.get? i with
    | some c => isWordChar c
    | none => false
  prevW != nextW

def lowerChars (cs : List Char) : List Char :=
  cs.map Char.toLower

def sliceChars (t : List Char) (i j : Nat) : List Char :=
  (t.drop i).take (j - i)

/-- Executable matching semantics: `matchesAt r t i j` holds when `r`
matches exactly the span from `i` (inclusive) to `j` (exclusive) of `t`,
comparing characters case-insensitively. -/
def matchesAt : Rgx → List Char → Nat → Nat → Bool
  | .lit cs, t, i, j =>
    decide (j = i + cs.length) && decide (j ≤ t.length) &&
      (lowerChars (sliceChars t i j) == lowerChars cs)
  | .wordB, t, i, j => decide (i = j) && isWordBoundaryAt t i
  | .seq a b, t, i, j =>
    (List.range (j + 1)).any fun k =>
      decide (i ≤ k) && decide (k ≤ j) && matchesAt a t i k && matchesAt b t k j
  | .alt a b, t, i, j => matchesAt a t i j || matchesAt b t i j

/-- One alternation branch of the generated regex: an element `E` between
two word boundaries.  Escaping (`re.escape`) makes `E` a literal. -/
def lookupBranch (e : String) : Rgx :=
  .seq .wordB (.seq (.lit e.data) .wordB)

def altList (r : Rgx) : List Rgx → Rgx
  | [] => r
  | x :: xs => .alt r (altList x xs)

/-- The AST of the regex string built by `_generate_lookup_regex`:
the alternation of one word-boundary-delimited branch per element.  With no
elements the join is empty and the group body is two adjacent word-boundary
assertions. -/
def generatedRgx (elements : List String) : Rgx :=
  match elements with
  | [] => .seq .wordB .wordB
  | e :: rest => altList (lookupBranch e) (rest.map lookupBranch)

/-- Renders the fragment back to regex-string syntax (escaping literals). -/
def renderRgx : Rgx → String
  | .lit cs => reEscape (String.mk cs)
  | .wordB => "\\b"
  | .seq a b => renderRgx a ++ renderRgx b
  | .alt a b => renderRgx a ++ "|" ++ renderRgx b

lemma stringMk_data (s : String) : String.mk s.data = s := rfl

lemma boundary_pipe_merge (x : String) :
    "\\b|" ++ ("\\b" ++ x) = "\\b|\\b" ++ x := by
  rw [← String.append_assoc]
  exact congrArg (fun y => y ++ x) (by decide)

lemma flag_boundary_merge (x : String) :
    "(?i)(" ++ ("\\b" ++ x) = "(?i)(\\b" ++ x := by
  rw [← String.append_assoc]
  exact congrArg (fun y => y ++ x) (by decide)

lemma renderRgx_altList_branches (e : String) (rest : List String) :
    renderRgx (altList (lookupBranch e) (rest.map lookupBranch)) =
      "\\b" ++ joinSep "\\b|\\b" ((e :: rest).map reEscape) ++ "\\b" := by
  induction rest generalizing e with
  | nil =>
    simp [altList, lookupBranch, renderRgx, joinSep, String.append_assoc,
      stringMk_data]
  | cons x xs ih =>
    simp only [List.map_cons, altList, renderRgx, lookupBranch] at *
    rw [ih x]
    cases xs with
    | nil =>
      simp [joinSep, String.append_assoc, stringMk_data, boundary_pipe_merge]
    | cons y ys =>
      simp [joinSep, String.append_assoc, stringMk_data, boundary_pipe_merge]

/-- `generatedRgx` is the AST of the string `_generate_lookup_regex`
builds. -/
lemma render_generatedRgx (table : LookupTable) :
    "(?i)(" ++ renderRgx (generatedRgx table.elements) ++ ")" =
      _generate_lookup_regex table := by
  rw [_generate_lookup_regex]
  cases h : table.elements with
  | nil => simp [generatedRgx, renderRgx, joinSep, String.append_assoc]
  | cons e rest =>
    rw [generatedRgx, renderRgx_altList_branches]
    simp [String.append_assoc, flag_boundary_merge]

lemma matchesAt_lookupBranch (e : String) (t : List Char) (i j : Nat) :
    matchesAt (lookupBranch e) t i j = true ↔
      (j = i + e.data.length ∧ j ≤ t.length ∧
        lowerChars (sliceChars t i j) = lowerChars e.data ∧
        isWordBoundaryAt t i = true ∧ isWordBoundaryAt t j = true) := by
  simp only [lookupBranch, matchesAt, List.any_eq_true, List.mem_range,
    Bool.and_eq_true, decide_eq_true_eq, beq_iff_eq]
  constructor
  · rintro ⟨k, hk, ⟨⟨hik, hkj⟩, rfl, hbi⟩, m, hm,
      ⟨⟨hkm, hmj⟩, ⟨hml, hmt⟩, hsl⟩, rfl, hbj⟩
    exact ⟨hml, hmt, hsl, hbi, hbj⟩
  · rintro ⟨hj, hjt, hsl, hbi, hbj⟩
    exact ⟨i, by omega, ⟨⟨le_refl i, by omega⟩, rfl, hbi⟩, j, by omega,
      ⟨⟨by omega, le_refl j⟩, ⟨hj, hjt⟩, hsl⟩, rfl, hbj⟩

lemma matchesAt_altList (r : Rgx) (rs : List Rgx) (t : List Char)
    (i j : Nat) :
    matchesAt (altList r rs) t i j = true ↔
      (matchesAt r t i j = true ∨ ∃ x ∈ rs, matchesAt x t i j = true) := by
  induction rs generalizing r with
  | nil => simp [altList]
  | cons x xs ih =>
    simp only [altList, matchesAt, Bool.or_eq_true, ih, List.mem_cons]
    constructor
    · rintro (h | h | ⟨y, hy, h⟩)
      · exact Or.inl h
      · exact Or.inr ⟨x, Or.inl rfl, h⟩
      · exact Or.inr ⟨y, Or.inr hy, h⟩
    · rintro (h | ⟨y, rfl | hy, h⟩)
      · exact Or.inl h
      · exact Or.inr (Or.inl h)
      · exact Or.inr (Or.inr ⟨y, hy, h⟩)

/-- C7 (amended to non-empty tables): the regex built by
`_generate_lookup_regex` — whose AST `generatedRgx` is certified by the
first conjunct — matches exactly the case-insensitive,
word-boundary-delimited occurrences of the table's literal elements
(metacharacters escaped) and nothing else. -/
theorem spec_C7_lookup_regex_matches (table : LookupTable)
    (hne : table.elements ≠ []) (t : List Char) (i j : Nat) :
    ("(?i)(" ++ renderRgx (generatedRgx table.elements) ++ ")" =
      _generate_lookup_regex table) ∧
    (matchesAt (generatedRgx table.elements) t i j = true ↔
      ∃ e ∈ table.elements, j = i + e.data.length ∧ j ≤ t.length ∧
        lowerChars (sliceChars t i j) = lowerChars e.data ∧
        isWordBoundaryAt t i = true ∧ isWordBoundaryAt t j = true) := by
  refine ⟨render_generatedRgx table, ?_⟩
  obtain ⟨e, rest, helems⟩ := List.exists_cons_of_ne_nil hne
  rw [helems, generatedRgx, matchesAt_altList]
  constructor
  · rintro (h | ⟨x, hx, h⟩)
    · exact ⟨e, List.mem_cons_self e rest,
        (matchesAt_lookupBranch e t i j).1 h⟩
    · obtain ⟨a, ha, rfl⟩ := List.mem_map.1 hx
      exact ⟨a, List.mem_cons_of_mem e ha,
        (matchesAt_lookupBranch a t i j).1 h⟩
  · rintro ⟨x, hx, hocc⟩
    rcases List.mem_cons.1 hx with rfl | hx2
    · exact Or.inl ((matchesAt_lookupBranch x t i j).2 hocc)
    · exact Or.inr ⟨lookupBranch x, List.mem_map_of_mem lookupBranch hx2,
        (matchesAt_lookupBranch x t i j).2 hocc⟩

/-- C7 counterexample: for the empty lookup table the generated regex is
`(?i)(\b\b)`, which matches the empty span at any word boundary — here at
position 0 of `"a"` — even though no occurrence of any table element exists
there, refuting the claim for every lookup table as stated. -/
theorem spec_C7_counterexample :
    ¬(matchesAt (generatedRgx ([] : List String)) "a".data 0 0 = true ↔
      ∃ e ∈ ([] : List String), (0 : Nat) = 0 + e.data.length ∧
        (0 : Nat) ≤ "a".data.length ∧
        lowerChars (sliceChars "a".data 0 0) = lowerChars e.data ∧
        isWordBoundaryAt "a".data 0 = true ∧
        isWordBoundaryAt "a".data 0 = true) := by
  decide

def nycTable : LookupTable := { name := "city", elements := ["NYC"] }

theorem spec_C7_witness :
    matchesAt (generatedRgx nycTable.elements) "I live in nyc".data 10 13 =
      true ∧
    matchesAt (generatedRgx nycTable.elements) "NYCA".data 0 3 = false := by
  constructor
  · exact (spec_C7_lookup_regex_matches nycTable (by decide)
      "I live in nyc".data 10 13).2.mpr (by decide)
  · have h := (spec_C7_lookup_regex_matches nycTable (by decide)
      "NYCA".data 0 3).2
    exact Bool.eq_false_iff.2 fun htrue =>
      (by decide :
        ¬∃ e ∈ nycTable.elements, (3 : Nat) = 0 + e.data.length ∧
          (3 : Nat) ≤ "NYCA".data.length ∧
          lowerChars (sliceChars "NYCA".data 0 3) = lowerChars e.data ∧
          isWordBoundaryAt "NYCA".data 0 = true ∧
          isWordBoundaryAt "NYCA".data 3 = true) (h.mp htrue)

/-- A Boolean indicator matrix as a list of rows, modelling the numpy array
`vec` of 0.0 / 1.0 values (regex_featurizer.py line 105); `true` models
`1.0`.  The returned `scipy.sparse.coo_matrix` preserves entries and shape
and is modelled by the matrix itself. -/
abbrev BMatrix := List (List Bool)

/-- The assignment `vec[seq_index][pattern_index] = 1.0`; the source only
writes in range, so out-of-range indices leaving the matrix unchanged is
unobservable. -/
def setEntry (m : BMatrix) (r c : Nat) : BMatrix :=
  match m[r]? with
  | some row => m.set r (row.set c true)
  | none => m

def getEntry (m : BMatrix) (r c : Nat) : Bool :=
  match m[r]? with
  | some row => row.getD c false
  | none => false

/-- A token of the tokenized message: its span (`offset` / `end`, the
latter renamed `end_` as `end` is reserved) and its per-pattern mark dict
(`t.get("pattern", default=...)` / `t.set("pattern", patterns)`,
regex_featurizer.py lines 112, 125). -/
structure Token where
  offset : Nat
  end_ : Nat
  patternMarks : List (String × Bool)
deriving DecidableEq

/-- The overlap test of regex_featurizer.py line 121:
`t.offset < match.end() and t.end > match.start()` — partial overlap
counts. -/
def spanOverlaps (t : Token) (sp : Nat × Nat) : Bool :=
  decide (t.offset < sp.2) && decide (t.end_ > sp.1)

/-- The `for match in matches` loop (regex_featurizer.py lines 120-123) for
one token and one pattern: every overlapping match span marks the token's
dict entry for the pattern name and sets the vector entry. -/
def spanLoop (t : Token) (pname : String) (seqIdx pIdx : Nat) :
    List (Nat × Nat) → List (String × Bool) → BMatrix →
      List (String × Bool) × BMatrix
  | [], marks, vec => (marks, vec)
  | sp :: rest, marks, vec =>
    if spanOverlaps t sp then
      spanLoop t pname seqIdx pIdx rest (dictSet marks pname true)
        (setEntry vec seqIdx pIdx)
    else
      spanLoop t pname seqIdx pIdx rest marks vec

/-- regex_featurizer.py lines 112-125 for one token and one pattern:
initialise the token's mark for this pattern name to `False`, run the match
loop, store the updated marks back on the token. -/
def processTokenPattern (pname : String) (spans : List (Nat × Nat))
    (seqIdx pIdx : Nat) (t : Token) (vec : BMatrix) : Token × BMatrix :=
  let st := spanLoop t pname seqIdx pIdx spans
    (dictSet t.patternMarks pname false) vec
  ({ t with patternMarks := st.1 }, st.2)

/-- The `for token_index, t in enumerate(tokens)` loop (regex_featurizer.py
lines 111-125) for one pattern: `seq_index` is the token index when
`return_sequence` is set and `0` otherwise. -/
def tokensLoop (pname : String) (spans : List (Nat × Nat))
    (return_sequence : Bool) (pIdx : Nat) :
    List (Nat × Token) → BMatrix → List Token × BMatrix
  | [], vec => ([], vec)
  | (tIdx, t) :: rest, vec =>
    let seqIdx := if return_sequence then tIdx else 0
    let r1 := processTokenPattern pname spans seqIdx pIdx t vec
    let r2 := tokensLoop pname spans return_sequence pIdx rest r1.2
    (r1.1 :: r2.1, r2.2)

/-- The `for pattern_index, pattern in enumerate(self.known_patterns)` loop
(regex_featurizer.py lines 107-125).  `finditer` is the oracle for
`re.finditer(pattern["pattern"], message.text)`: the list of match spans of
a pattern string in the text. -/
def patternsLoop (return_sequence : Bool)
    (finditer : String → String → List (Nat × Nat)) (text : String) :
    List (Nat × Pattern) → List Token → BMatrix → List Token × BMatrix
  | [], ts, vec => (ts, vec)
  | (pIdx, p) :: rest, ts, vec =>
    let spans := finditer p.pattern text
    let r1 := tokensLoop p.name spans return_sequence pIdx ts.enum vec
    patternsLoop return_sequence finditer text rest r1.1 r1.2

/-- `_features_for_patterns` (regex_featurizer.py lines 89-127): the zero
matrix has `len(tokens)` rows when `return_sequence` is set and one row
otherwise, and one column per known pattern; then the pattern loop runs. -/
def featuresForPatterns (known_patterns : List Pattern)
    (return_sequence : Bool)
    (finditer : String → String → List (Nat × Nat)) (text : String)
    (tokens : List Token) : List Token × BMatrix :=
  let seq_length := if return_sequence then tokens.length else 1
  let vec := List.replicate seq_length
    (List.replicate known_patterns.length false)
  patternsLoop return_sequence finditer text known_patterns.enum tokens vec

lemma dictGet_dictSet_same {β : Type} (d : List (String × β)) (k : String)
    (v : β) : dictGet (dictSet d k v) k = some v := by
  induction d with
  | nil => simp [dictSet, dictGet]
  | cons p rest ih =>
    obtain ⟨k2, v2⟩ := p
    by_cases h : k2 = k
    · simp [dictSet, dictGet, h]
    · simp [dictSet, dictGet, h, ih]

lemma dictGet_dictSet_ne {β : Type} (d : List (String × β)) (k k2 : String)
    (v : β) (h : k2 ≠ k) : dictGet (dictSet d k v) k2 = dictGet d k2 := by
  induction d with
  | nil => simp [dictSet, dictGet, Ne.symm h]
  | cons p rest ih =>
    obtain ⟨k3, v3⟩ := p
    by_cases h3 : k3 = k
    · subst h3
      simp [dictSet, dictGet, Ne.symm h]
    · by_cases h32 : k3 = k2
      · subst h32
        simp [dictSet, dictGet, h3, h]
      · simp [dictSet, dictGet, h3, h32, ih]

lemma setEntry_maplen (m : BMatrix) (r c : Nat) :
    (setEntry m r c).map List.length = m.map List.length := by
  rw [setEntry]
  cases h : m[r]? with
  | none => rfl
  | some row =>
    obtain ⟨hlt, hget⟩ := List.getElem?_eq_some_iff.1 h
    apply List.ext_getElem?
    intro n
    by_cases hn : r = n
    · subst hn
      simp [List.getElem?_map, List.getElem?_set_self hlt, h]
      rw [List.getElem?_set_self (by simpa using hlt)]
    · simp [List.getElem?_map, List.getElem?_set_ne hn]

lemma getEntry_setEntry_mono (m : BMatrix) (r c r2 c2 : Nat)
    (h : getEntry m r2 c2 = true) : getEntry (setEntry m r c) r2 c2 = true := by
  rw [setEntry]
  cases hr : m[r]? with
  | none => exact h
  | some row =>
    obtain ⟨hlt, -⟩ := List.getElem?_eq_some_iff.1 hr
    rw [getEntry] at h ⊢
    by_cases hrr : r = r2
    · subst hrr
      rw [hr] at h
      have h2 : row.getD c2 false = true := h
      rw [List.getElem?_set_self hlt]
      show (row.set c true).getD c2 false = true
      by_cases hcc : c = c2
      · subst hcc
        by_cases hcl : c < row.length
        · rw [List.getD_eq_getElem?_getD, List.getElem?_set_self hcl]
          rfl
        · rw [List.set_eq_of_length_le (by omega)]
          exact h2
      · rw [List.getD_eq_getElem?_getD, List.getElem?_set_ne hcc,
          ← List.getD_eq_getElem?_getD]
        exact h2
    · rw [List.getElem?_set_ne hrr]
      exact h

lemma getEntry_setEntry_self (m : BMatrix) (r c : Nat) (row : List Bool)
    (hr : m[r]? = some row) (hc : c < row.length) :
    getEntry (setEntry m r c) r c = true := by
  obtain ⟨hlt, -⟩ := List.getElem?_eq_some_iff.1 hr
  rw [setEntry, hr, getEntry, List.getElem?_set_self hlt]
  show (row.set c true).getD c false = true
  rw [List.getD_eq_getElem?_getD, List.getElem?_set_self hc]
  rfl

lemma spanLoop_marks_same (t : Token) (pname : String) (s p : Nat) :
    ∀ (spans : List (Nat × Nat)) (marks : List (String × Bool))
      (vec : BMatrix),
      dictGet (spanLoop t pname s p spans marks vec).1 pname =
        if spans.any (spanOverlaps t) then some true
        else dictGet marks pname := by
  intro spans
  induction spans with
  | nil => intro marks vec; simp [spanLoop]
  | cons sp rest ih =>
    intro marks vec
    simp only [spanLoop, List.any_cons]
    by_cases ho : spanOverlaps t sp = true
    · rw [if_pos ho, ih]
      simp [ho, dictGet_dictSet_same]
    · have ho2 : spanOverlaps t sp = false := by
        cases hh : spanOverlaps t sp
        · rfl
        · exact absurd hh ho
      rw [if_neg ho, ih]
      simp only [ho2, Bool.false_or]

lemma spanLoop_marks_ne (t : Token) (pname : String) (s p : Nat)
    (k : String) (hk : k ≠ pname) :
    ∀ (spans : List (Nat × Nat)) (marks : List (String × Bool))
      (vec : BMatrix),
      dictGet (spanLoop t pname s p spans marks vec).1 k =
        dictGet marks k := by
  intro spans
  induction spans with
  | nil => intro marks vec; simp [spanLoop]
  | cons sp rest ih =>
    intro marks vec
    simp only [spanLoop]
    by_cases ho : spanOverlaps t sp = true
    · rw [if_pos ho, ih, dictGet_dictSet_ne _ _ _ _ hk]
    · rw [if_neg ho, ih]

lemma spanLoop_vec_maplen (t : Token) (pname : String) (s p : Nat) :
    ∀ (spans : List (Nat × Nat)) (marks : List (String × Bool))
      (vec : BMatrix),
      (spanLoop t pname s p spans marks vec).2.map List.length =
        vec.map List.length := by
  intro spans
  induction spans with
  | nil => intro marks vec; simp [spanLoop]
  | cons sp rest ih =>
    intro marks vec
    simp only [spanLoop]
    by_cases ho : spanOverlaps t sp = true
    · rw [if_pos ho, ih, setEntry_maplen]
    · rw [if_neg ho, ih]

lemma spanLoop_vec_mono (t : Token) (pname : String) (s p : Nat) :
    ∀ (spans : List (Nat × Nat)) (marks : List (String × Bool))
      (vec : BMatrix) (r c : Nat), getEntry vec r c = true →
      getEntry (spanLoop t pname s p spans marks vec).2 r c = true := by
  intro spans
  induction spans with
  | nil => intro marks vec r c h; simpa [spanLoop] using h
  | cons sp rest ih =>
    intro marks vec r c h
    simp only [spanLoop]
    by_cases ho : spanOverlaps t sp = true
    · rw [if_pos ho]
      exact ih _ _ r c (getEntry_setEntry_mono vec s p r c h)
    · rw [if_neg ho]
      exact ih _ _ r c h

lemma spanLoop_vec_set (t : Token) (pname : String) (s p : Nat) :
    ∀ (spans : List (Nat × Nat)) (marks : List (String × Bool))
      (vec : BMatrix), spans.any (spanOverlaps t) = true →
      s < vec.length → (∀ row ∈ vec, p < row.length) →
      getEntry (spanLoop t pname s p spans marks vec).2 s p = true := by
  intro spans
  induction spans with
  | nil => intro marks vec h; simp at h
  | cons sp rest ih =>
    intro marks vec hany hs hrow
    simp only [spanLoop]
    by_cases ho : spanOverlaps t sp = true
    · rw [if_pos ho]
      apply spanLoop_vec_mono
      cases hv : vec[s]? with
      | none =>
        rw [List.getElem?_eq_none_iff] at hv
        omega
      | some row =>
        exact getEntry_setEntry_self vec s p row hv
          (hrow row (List.getElem?_mem hv))
    · have ho2 : spanOverlaps t sp = false := by
        cases hh : spanOverlaps t sp
        · rfl
        · exact absurd hh ho
      rw [if_neg ho]
      rw [List.any_cons, ho2, Bool.false_or] at hany
      exact ih _ _ hany hs hrow

lemma tokensLoop_fst_length (pname : String) (spans : List (Nat × Nat))
    (rs : Bool) (pIdx : Nat) :
    ∀ (l : List (Nat × Token)) (vec : BMatrix),
      (tokensLoop pname spans rs pIdx l vec).1.length = l.length := by
  intro l
  induction l with
  | nil => intro vec; simp [tokensLoop]
  | cons q rest ih =>
    intro vec
    obtain ⟨qi, qt⟩ := q
    simp [tokensLoop, ih]

lemma tokensLoop_vec_maplen (pname : String) (spans : List (Nat × Nat))
    (rs : Bool) (pIdx : Nat) :
    ∀ (l : List (Nat × Token)) (vec : BMatrix),
      (tokensLoop pname spans rs pIdx l vec).2.map List.length =
        vec.map List.length := by
  intro l
  induction l with
  | nil => intro vec; simp [tokensLoop]
  | cons q rest ih =>
    intro vec
    obtain ⟨qi, qt⟩ := q
    simp only [tokensLoop]
    rw [ih, processTokenPattern, spanLoop_vec_maplen]

lemma tokensLoop_vec_mono (pname : String) (spans : List (Nat × Nat))
    (rs : Bool) (pIdx : Nat) :
    ∀ (l : List (Nat × Token)) (vec : BMatrix) (r c : Nat),
      getEntry vec r c = true →
      getEntry (tokensLoop pname spans rs pIdx l vec).2 r c = true := by
  intro l
  induction l with
  | nil => intro vec r c h; simpa [tokensLoop] using h
  | cons q rest ih =>
    intro vec r c h
    obtain ⟨qi, qt⟩ := q
    simp only [tokensLoop]
    exact ih _ r c (spanLoop_vec_mono qt pname _ pIdx spans _ vec r c h)

lemma tokensLoop_fst_get (pname : String) (spans : List (Nat × Nat))
    (rs : Bool) (pIdx : Nat) :
    ∀ (l : List (Nat × Token)) (vec : BMatrix) (idx tIdx : Nat) (t : Token),
      l[idx]? = some (tIdx, t) →
      ∃ t2, (tokensLoop pname spans rs pIdx l vec).1[idx]? = some t2 ∧
        t2.offset = t.offset ∧ t2.end_ = t.end_ ∧
        dictGet t2.patternMarks pname =
          some (spans.any (spanOverlaps t)) ∧
        ∀ k, k ≠ pname →
          dictGet t2.patternMarks k = dictGet t.patternMarks k := by
  intro l
  induction l with
  | nil => intro vec idx tIdx t h; simp at h
  | cons q rest ih =>
    intro vec idx tIdx t h
    obtain ⟨qi, qt⟩ := q
    cases idx with
    | zero =>
      simp only [List.getElem?_cons_zero, Option.some_inj] at h
      have hqt : qt = t := congrArg Prod.snd h
      subst hqt
      refine ⟨(processTokenPattern pname spans (if rs then qi else 0) pIdx
        qt vec).1, by simp [tokensLoop], rfl, rfl, ?_, ?_⟩
      · show dictGet (spanLoop qt pname (if rs then qi else 0) pIdx spans
          (dictSet qt.patternMarks pname false) vec).1 pname = _
        rw [spanLoop_marks_same]
        cases hany : spans.any (spanOverlaps qt)
        · simp [dictGet_dictSet_same]
        · simp
      · intro k hk
        show dictGet (spanLoop qt pname (if rs then qi else 0) pIdx spans
          (dictSet qt.patternMarks pname false) vec).1 k = _
        rw [spanLoop_marks_ne _ _ _ _ _ hk, dictGet_dictSet_ne _ _ _ _ hk]
    | succ n =>
      simp only [List.getElem?_cons_succ] at h
      simp only [tokensLoop, List.getElem?_cons_succ]
      exact ih _ n tIdx t h

lemma tokensLoop_vec_set (pname : String) (spans : List (Nat × Nat))
    (rs : Bool) (pIdx : Nat) :
    ∀ (l : List (Nat × Token)) (vec : BMatrix) (idx tIdx : Nat) (t : Token),
      l[idx]? = some (tIdx, t) →
      spans.any (spanOverlaps t) = true →
      (if rs then tIdx else 0) < vec.length →
      (∀ row ∈ vec, pIdx < row.length) →
      getEntry (tokensLoop pname spans rs pIdx l vec).2
        (if rs then tIdx else 0) pIdx = true := by
  intro l
  induction l with
  | nil => intro vec idx tIdx t h; simp at h
  | cons q rest ih =>
    intro vec idx tIdx t h hany hs hrow
    obtain ⟨qi, qt⟩ := q
    cases idx with
    | zero =>
      simp only [List.getElem?_cons_zero, Option.some_inj] at h
      have hqi : qi = tIdx := congrArg Prod.fst h
      have hqt : qt = t := congrArg Prod.snd h
      subst hqi
      subst hqt
      simp only [tokensLoop]
      apply tokensLoop_vec_mono
      show getEntry (spanLoop qt pname (if rs then qi else 0) pIdx spans
        (dictSet qt.patternMarks pname false) vec).2 _ pIdx = true
      exact spanLoop_vec_set qt pname _ pIdx spans _ vec hany hs hrow
    | succ n =>
      simp only [List.getElem?_cons_succ] at h
      simp only [tokensLoop]
      have hml2 : (processTokenPattern pname spans (if rs then qi else 0)
          pIdx qt vec).2.map List.length = vec.map List.length :=
        spanLoop_vec_maplen qt pname (if rs then qi else 0) pIdx spans
          (dictSet qt.patternMarks pname false) vec
      have hlen : (processTokenPattern pname spans (if rs then qi else 0)
          pIdx qt vec).2.length = vec.length := by
        have h2 := congrArg List.length hml2
        simpa using h2
      apply ih _ n tIdx t h hany
      · rw [hlen]
        exact hs
      · intro row hr
        have hmem : row.length ∈ vec.map List.length := by
          rw [← hml2]
          exact List.mem_map_of_mem List.length hr
        obtain ⟨row2, hrow2, heq⟩ := List.mem_map.1 hmem
        rw [← heq]
        exact hrow row2 hrow2

lemma patternsLoop_vec_maplen (rs : Bool)
    (fd : String → String → List (Nat × Nat)) (text : String) :
    ∀ (plist : List (Nat × Pattern)) (ts : List Token) (vec : BMatrix),
      (patternsLoop rs fd text plist ts vec).2.map List.length =
        vec.map List.length := by
  intro plist
  induction plist with
  | nil => intro ts vec; simp [patternsLoop]
  | cons q rest ih =>
    intro ts vec
    obtain ⟨qi, qp⟩ := q
    simp only [patternsLoop]
    rw [ih, tokensLoop_vec_maplen]

lemma patternsLoop_vec_mono (rs : Bool)
    (fd : String → String → List (Nat × Nat)) (text : String) :
    ∀ (plist : List (Nat × Pattern)) (ts : List Token) (vec : BMatrix)
      (r c : Nat), getEntry vec r c = true →
      getEntry (patternsLoop rs fd text plist ts vec).2 r c = true := by
  intro plist
  induction plist with
  | nil => intro ts vec r c h; simpa [patternsLoop] using h
  | cons q rest ih =>
    intro ts vec r c h
    obtain ⟨qi, qp⟩ := q
    simp only [patternsLoop]
    exact ih _ _ r c (tokensLoop_vec_mono _ _ _ _ _ _ r c h)

lemma patternsLoop_fst_length (rs : Bool)
    (fd : String → String → List (Nat × Nat)) (text : String) :
    ∀ (plist : List (Nat × Pattern)) (ts : List Token) (vec : BMatrix),
      (patternsLoop rs fd text plist ts vec).1.length = ts.length := by
  intro plist
  induction plist with
  | nil => intro ts vec; simp [patternsLoop]
  | cons q rest ih =>
    intro ts vec
    obtain ⟨qi, qp⟩ := q
    simp only [patternsLoop]
    rw [ih, tokensLoop_fst_length, List.enum_length]

lemma patternsLoop_preserve (rs : Bool)
    (fd : String → String → List (Nat × Nat)) (text : String) (k : String) :
    ∀ (plist : List (Nat × Pattern)) (ts : List Token) (vec : BMatrix)
      (ti : Nat) (t : Token),
      ts[ti]? = some t → (∀ q ∈ plist, q.2.name ≠ k) →
      ∃ t2, (patternsLoop rs fd text plist ts vec).1[ti]? = some t2 ∧
        t2.offset = t.offset ∧ t2.end_ = t.end_ ∧
        dictGet t2.patternMarks k = dictGet t.patternMarks k := by
  intro plist
  induction plist with
  | nil =>
    intro ts vec ti t ht hn
    exact ⟨t, by simpa [patternsLoop] using ht, rfl, rfl, rfl⟩
  | cons q rest ih =>
    intro ts vec ti t ht hn
    obtain ⟨qi, qp⟩ := q
    simp only [patternsLoop]
    have henum : ts.enum[ti]? = some (ti, t) := by
      rw [List.getElem?_enum, ht]
      rfl
    obtain ⟨t1, hget1, hoff1, hend1, hm1, hk1⟩ :=
      tokensLoop_fst_get qp.name (fd qp.pattern text) rs qi ts.enum vec
        ti ti t henum
    have hq : qp.name ≠ k := hn (qi, qp) (List.mem_cons_self _ _)
    obtain ⟨t2, hget2, hoff2, hend2, hk2⟩ :=
      ih _ _ ti t1 hget1 (fun q2 hqr => hn q2 (List.mem_cons_of_mem _ hqr))
    exact ⟨t2, hget2, hoff2.trans hoff1, hend2.trans hend1,
      by rw [hk2, hk1 k (fun hh => hq hh.symm)]⟩

lemma patternsLoop_spec (rs : Bool)
    (fd : String → String → List (Nat × Nat)) (text : String) :
    ∀ (plist : List (Nat × Pattern)) (ts : List Token) (vec : BMatrix)
      (pIdx : Nat) (p : Pattern) (ti : Nat) (t : Token),
      (pIdx, p) ∈ plist →
      (plist.map fun q => q.2.name).Nodup →
      ts[ti]? = some t →
      (if rs then ti else 0) < vec.length →
      (∀ row ∈ vec, pIdx < row.length) →
      (∃ t2, (patternsLoop rs fd text plist ts vec).1[ti]? = some t2 ∧
        dictGet t2.patternMarks p.name =
          some ((fd p.pattern text).any (spanOverlaps t))) ∧
      ((fd p.pattern text).any (spanOverlaps t) = true →
        getEntry (patternsLoop rs fd text plist ts vec).2
          (if rs then ti else 0) pIdx = true) := by
  intro plist
  induction plist with
  | nil =>
    intro ts vec pIdx p ti t hmem
    simp at hmem
  | cons q rest ih =>
    intro ts vec pIdx p ti t hmem hnodup ht hs hrow
    obtain ⟨qi, qp⟩ := q
    rw [List.map_cons, List.nodup_cons] at hnodup
    obtain ⟨hqnotin, hnodup2⟩ := hnodup
    have henum : ts.enum[ti]? = some (ti, t) := by
      rw [List.getElem?_enum, ht]
      rfl
    rcases List.mem_cons.1 hmem with heq | hmem2
    · have hpi : pIdx = qi := congrArg Prod.fst heq
      have hpp : p = qp := congrArg Prod.snd heq
      subst hpi
      subst hpp
      simp only [patternsLoop]
      obtain ⟨t1, hget1, hoff1, hend1, hm1, hk1⟩ :=
        tokensLoop_fst_get p.name (fd p.pattern text) rs pIdx ts.enum vec
          ti ti t henum
      constructor
      · obtain ⟨t2, hget2, hoff2, hend2, hk2⟩ :=
          patternsLoop_preserve rs fd text p.name rest _ _ ti t1 hget1
            (fun q2 hq2 hqn =>
              hqnotin (hqn ▸ List.mem_map_of_mem (fun q => q.2.name) hq2))
        exact ⟨t2, hget2, by rw [hk2, hm1]⟩
      · intro hany
        apply patternsLoop_vec_mono
        exact tokensLoop_vec_set p.name (fd p.pattern text) rs pIdx ts.enum
          vec ti ti t henum hany hs hrow
    · simp only [patternsLoop]
      obtain ⟨t1, hget1, hoff1, hend1, hm1, hk1⟩ :=
        tokensLoop_fst_get qp.name (fd qp.pattern text) rs qi ts.enum vec
          ti ti t henum
      have hspan : spanOverlaps t1 = spanOverlaps t := by
        funext sp
        rw [spanOverlaps, spanOverlaps, hoff1, hend1]
      have hml : (tokensLoop qp.name (fd qp.pattern text) rs qi ts.enum
          vec).2.map List.length = vec.map List.length :=
        tokensLoop_vec_maplen qp.name (fd qp.pattern text) rs qi ts.enum vec
      have hlen : (tokensLoop qp.name (fd qp.pattern text) rs qi ts.enum
          vec).2.length = vec.length := by
        simpa using congrArg List.length hml
      have hrows2 : ∀ row ∈ (tokensLoop qp.name (fd qp.pattern text) rs qi
          ts.enum vec).2, pIdx < row.length := by
        intro row hr
        have hmemlen : row.length ∈ vec.map List.length := by
          rw [← hml]
          exact List.mem_map_of_mem List.length hr
        obtain ⟨row2, hrow2, heq2⟩ := List.mem_map.1 hmemlen
        rw [← heq2]
        exact hrow row2 hrow2
      have hres := ih _ _ pIdx p ti t1 hmem2 hnodup2 hget1
        (by rw [hlen]; exact hs) hrows2
      obtain ⟨⟨t2, hget2, hm2⟩, hentry⟩ := hres
      constructor
      · exact ⟨t2, hget2, by rw [hm2, hspan]⟩
      · intro hany
        apply hentry
        rw [hspan]
        exact hany

/-- C8 (amended to pairwise-distinct pattern names): in
`_features_for_patterns`, for every tokenized message and every known
pattern, the token's final mark for the pattern's name records exactly
whether some match span of that pattern overlaps the token's span (partial
overlap counts: token offset strictly before match end and token end
strictly after match start), and the token is marked matched with the
corresponding vector entry set to 1.0 exactly when such an overlap exists;
in particular two tokens each partially overlapping one match span are both
marked (see the witness).  With duplicate pattern names the mark dict key
is shared and the last same-named pattern overwrites it (see the
counterexample). -/
theorem spec_C8_token_marks (kps : List Pattern)
    (hnames : (kps.map Pattern.name).Nodup) (rs : Bool)
    (fd : String → String → List (Nat × Nat)) (text : String)
    (ts : List Token) (ti : Nat) (t : Token) (ht : ts[ti]? = some t)
    (pi : Nat) (p : Pattern) (hp : kps[pi]? = some p) :
    ∃ t2, (featuresForPatterns kps rs fd text ts).1[ti]? = some t2 ∧
      dictGet t2.patternMarks p.name =
        some ((fd p.pattern text).any (spanOverlaps t)) ∧
      ((dictGet t2.patternMarks p.name = some true ∧
        getEntry (featuresForPatterns kps rs fd text ts).2
          (if rs then ti else 0) pi = true) ↔
        (fd p.pattern text).any (spanOverlaps t) = true) := by
  obtain ⟨hpi_lt, -⟩ := List.getElem?_eq_some_iff.1 hp
  obtain ⟨hti_lt, -⟩ := List.getElem?_eq_some_iff.1 ht
  have hmem : (pi, p) ∈ kps.enum := by
    apply List.getElem?_mem
    rw [List.getElem?_enum, hp]
    rfl
  have hnodup : (kps.enum.map fun q => q.2.name).Nodup := by
    have h1 : (kps.enum.map fun q => q.2.name) = kps.map Pattern.name := by
      rw [show (fun q : Nat × Pattern => q.2.name) =
        Pattern.name ∘ Prod.snd from rfl, ← List.map_map, List.enum_map_snd]
    rw [h1]
    exact hnames
  have hs : (if rs then ti else 0) <
      (List.replicate (if rs then ts.length else 1)
        (List.replicate kps.length false)).length := by
    rw [List.length_replicate]
    cases rs
    · simp
    · simpa using hti_lt
  have hrow : ∀ row ∈ List.replicate (if rs then ts.length else 1)
      (List.replicate kps.length false), pi < row.length := by
    intro row hr
    rw [List.eq_of_mem_replicate hr, List.length_replicate]
    exact hpi_lt
  have hres := patternsLoop_spec rs fd text kps.enum ts
    (List.replicate (if rs then ts.length else 1)
      (List.replicate kps.length false)) pi p ti t hmem hnodup ht hs hrow
  obtain ⟨⟨t2, hget2, hm2⟩, hentry⟩ := hres
  refine ⟨t2, hget2, hm2, ?_, ?_⟩
  · rintro ⟨hmark, -⟩
    rw [hm2] at hmark
    exact Option.some_inj.1 hmark
  · intro hany
    exact ⟨by rw [hm2, hany], hentry hany⟩

def c8Patterns : List Pattern :=
  [{ name := "n", pattern := "a" }, { name := "n", pattern := "b" }]

def c8Finditer : String → String → List (Nat × Nat) :=
  fun pat _ => if pat = "a" then [(0, 1)] else [(1, 2)]

def c8Tokens : List Token := [{ offset := 0, end_ := 1, patternMarks := [] }]

/-- C8 counterexample: two known patterns share the name `"n"`.  The first
pattern's match span overlaps the only token, yet the token's final mark
for `"n"` is `False`, because the second same-named pattern (which does not
overlap) overwrote the dict entry — refuting the claim as universally
stated. -/
theorem spec_C8_counterexample :
    ((featuresForPatterns c8Patterns false c8Finditer "ab" c8Tokens).1.map
      (fun t => dictGet t.patternMarks "n")) = [some false] ∧
    (c8Finditer "a" "ab").any
      (spanOverlaps { offset := 0, end_ := 1, patternMarks := [] }) =
      true := by
  decide

def c8wPatterns : List Pattern := [{ name := "num", pattern := "d" }]

def c8wFinditer : String → String → List (Nat × Nat) := fun _ _ => [(0, 4)]

def c8wTokens : List Token :=
  [{ offset := 0, end_ := 2, patternMarks := [] },
   { offset := 2, end_ := 4, patternMarks := [] }]

theorem spec_C8_witness :
    ((featuresForPatterns c8wPatterns true c8wFinditer "1234" c8wTokens).1.map
      (fun t => dictGet t.patternMarks "num")) = [some true, some true] := by
  have h0 := spec_C8_token_marks c8wPatterns (by decide) true c8wFinditer
    "1234" c8wTokens 0 { offset := 0, end_ := 2, patternMarks := [] } rfl
    0 { name := "num", pattern := "d" } rfl
  have h1 := spec_C8_token_marks c8wPatterns (by decide) true c8wFinditer
    "1234" c8wTokens 1 { offset := 2, end_ := 4, patternMarks := [] } rfl
    0 { name := "num", pattern := "d" } rfl
  obtain ⟨t2, hget2, hm2, -⟩ := h0
  obtain ⟨t3, hget3, hm3, -⟩ := h1
  have hm2b : dictGet t2.patternMarks "num" = some true := hm2
  have hm3b : dictGet t3.patternMarks "num" = some true := hm3
  have hlen : (featuresForPatterns c8wPatterns true c8wFinditer "1234"
      c8wTokens).1.length = 2 := by
    show (patternsLoop true c8wFinditer "1234" c8wPatterns.enum c8wTokens
      _).1.length = 2
    rw [patternsLoop_fst_length]
    rfl
  cases hres : (featuresForPatterns c8wPatterns true c8wFinditer "1234"
      c8wTokens).1 with
  | nil =>
    rw [hres] at hlen
    simp at hlen
  | cons a tail =>
    cases tail with
    | nil =>
      rw [hres] at hlen
      simp at hlen
    | cons b tail2 =>
      cases tail2 with
      | cons c tail3 =>
        rw [hres] at hlen
        simp at hlen
      | nil =>
        rw [hres] at hget2 hget3
        simp only [List.getElem?_cons_zero, List.getElem?_cons_succ,
          Option.some_inj] at hget2 hget3
        subst hget2
        subst hget3
        rw [List.map_cons, List.map_cons, List.map_nil, hm2b, hm3b]

/-- C10: the matrix returned by `_features_for_patterns` has exactly one
row when `return_sequence` is false (one row per token when true) and
exactly one column per entry of `known_patterns`, regardless of the message
text or which patterns match. -/
theorem spec_C10_matrix_shape (kps : List Pattern) (rs : Bool)
    (fd : String → String → List (Nat × Nat)) (text : String)
    (ts : List Token) :
    (featuresForPatterns kps rs fd text ts).2.length =
      (if rs then ts.length else 1) ∧
    (featuresForPatterns kps rs fd text ts).2.all
      (fun row => row.length == kps.length) = true := by
  have hml : (featuresForPatterns kps rs fd text ts).2.map List.length =
      List.replicate (if rs then ts.length else 1) kps.length := by
    show (patternsLoop rs fd text kps.enum ts
      (List.replicate (if rs then ts.length else 1)
        (List.replicate kps.length false))).2.map List.length = _
    rw [patternsLoop_vec_maplen]
    simp [List.map_replicate]
  constructor
  · have h2 := congrArg List.length hml
    simpa using h2
  · rw [List.all_eq_true]
    intro row hr
    have hmem : row.length ∈
        List.replicate (if rs then ts.length else 1) kps.length := by
      rw [← hml]
      exact List.mem_map_of_mem List.length hr
    simpa using List.eq_of_mem_replicate hmem

/-- The files of a directory — and equally the entries of a tar archive —
as relative-path / byte-content pairs.  `tarfile` gzip compression and
extraction (`create_package_rasa` adds every entry of the training
directory, model.py lines 288-290; `unpack_model` extracts them all,
lines 204-207) are standard-library collaborators modelled as a faithful
entry round trip. -/
abbrev DirEntries := List (String × String)

/-- `persist_fingerprint` (model.py lines 397-407): serialise the
fingerprint (JSON dump — library code, represented by the `serialize`
oracle) and write it to `fingerprint.json` in the output directory,
overwriting any previous file. -/
def persist_fingerprint (serialize : Fingerprint → String)
    (output_dir : DirEntries) (fingerprint : Fingerprint) : DirEntries :=
  dictSet output_dir "fingerprint.json" (serialize fingerprint)

/-- `create_package_rasa` (model.py lines 262-293): optionally persist the
fingerprint into the training directory, then archive every entry of the
directory (the staging directory is deleted afterwards, which does not
affect the archive's contents). -/
def create_package_rasa (serialize : Fingerprint → String)
    (training_directory : DirEntries) (fingerprint : Option Fingerprint) :
    DirEntries :=
  match fingerprint with
  | some fp => persist_fingerprint serialize training_directory fp
  | none => training_directory

/-- `unpack_model` (model.py lines 184-212): extract all archive entries
into the working directory. -/
def unpack_model (archive : DirEntries) : DirEntries := archive

/-- C9: running `create_package_rasa` with a fingerprint and then
`unpack_model` on the produced archive yields a directory whose
`fingerprint.json` content is byte-for-byte identical to the fingerprint
file persisted into the training directory before archiving. -/
theorem spec_C9_package_unpack_roundtrip (serialize : Fingerprint → String)
    (training_directory : DirEntries) (fingerprint : Fingerprint) :
    dictGet (unpack_model
        (create_package_rasa serialize training_directory
          (some fingerprint))) "fingerprint.json" =
      dictGet (persist_fingerprint serialize training_directory fingerprint)
        "fingerprint.json" ∧
    dictGet (unpack_model
        (create_package_rasa serialize training_directory
          (some fingerprint))) "fingerprint.json" =
      some (serialize fingerprint) := by
  refine ⟨rfl, ?_⟩
  show dictGet (dictSet training_directory "fingerprint.json"
    (serialize fingerprint)) "fingerprint.json" = some (serialize fingerprint)
  rw [dictGet_dictSet_same]
